import Mathlib

/-!
Shallow embedding of `extract_thread_color_from_pattern` from
`render_cli.py`, the dominant-corner-color extractor of the repository,
together with theorems about the claims of the specification.

The Python function opens an image, converts it to RGBA, samples the
top-right rectangle

    sample_width  = max(1, int(width * 0.1))
    sample_height = max(1, int(height * 0.05))
    start_x       = max(0, int(width * 0.9))
    start_y       = max(0, int(height * 0.05))

collects the (r, g, b) triples of pixels with alpha > 200 in row-major
order, and returns the hex string of `Counter(colors).most_common(1)[0][0]`,
falling back to the single pixel `(min(width - 1, start_x), start_y)` when
no pixel of the rectangle passes the alpha filter.

On the float arithmetic: the IEEE-754 doubles `0.1`, `0.9` and `0.05` are
each strictly above the exact rationals 1/10, 9/10 and 1/20, so the real
products `width * 0.1`, `width * 0.9`, `height * 0.05` computed before the
final rounding are strictly above the exact products; rounding to nearest
can then never land below the exact floor, and it can only cross the next
integer upward once the accumulated error (about `width * 2e-16`) reaches
the minimal fractional gap 1/10 resp. 1/20, i.e. for dimensions beyond
roughly 2^49.  Every dimension PIL can decode is far below that bound, so
`int(width * 0.1) = width / 10`, `int(width * 0.9) = width * 9 / 10` and
`int(height * 0.05) = height / 20` hold exactly (Nat floor division), and
the embedding uses the Nat forms.
-/

/-- One RGBA pixel as returned by `pil_image.getpixel` after the
`convert("RGBA")` call: four channels, each a byte 0..255. -/
structure RGBA where
  r : Nat
  g : Nat
  b : Nat
  a : Nat
deriving DecidableEq

/-- An (r, g, b) triple as appended to the `colors` list by the sampling
loop (the alpha channel is dropped). -/
structure RGB where
  r : Nat
  g : Nat
  b : Nat
deriving DecidableEq

/-- A decoded image: its dimensions and its pixel grid.  `pix x y` models
`pil_image.getpixel((x, y))`; only the values with `x < width` and
`y < height` correspond to real pixels of the file. -/
structure Image where
  width : Nat
  height : Nat
  pix : Nat → Nat → RGBA

/-- A pixel's channels are bytes; PIL guarantees this for every decoded
in-bounds pixel of an RGBA image. -/
def Image.valid (img : Image) : Prop :=
  ∀ x, x < img.width → ∀ y, y < img.height →
    (img.pix x y).r ≤ 255 ∧ (img.pix x y).g ≤ 255 ∧
    (img.pix x y).b ≤ 255 ∧ (img.pix x y).a ≤ 255

instance (img : Image) : Decidable img.valid := by
  unfold Image.valid; infer_instance

/-- `sample_width = max(1, int(width * 0.1))`. -/
def sample_width (width : Nat) : Nat := max 1 (width / 10)

/-- `sample_height = max(1, int(height * 0.05))`. -/
def sample_height (height : Nat) : Nat := max 1 (height / 20)

/-- `start_x = max(0, int(width * 0.9))` (the `max 0` is the identity on
Nat, kept to mirror the source line). -/
def start_x (width : Nat) : Nat := max 0 (width * 9 / 10)

/-- `start_y = max(0, int(height * 0.05))`. -/
def start_y (height : Nat) : Nat := max 0 (height / 20)

/-- The `colors` list built by the two nested loops
`for sy in range(sample_height): for sx in range(sample_width):` —
row-major traversal of the sample rectangle, keeping the (r, g, b) of
each pixel with alpha strictly above 200, in loop order. -/
def colors (img : Image) : List RGB :=
  (List.range (sample_height img.height)).flatMap fun sy =>
    (List.range (sample_width img.width)).filterMap fun sx =>
      let p := img.pix (start_x img.width + sx) (start_y img.height + sy)
      if 200 < p.a then some ⟨p.r, p.g, p.b⟩ else none

/-- Left fold selecting the element maximising `f`, replacing the current
best only on a strict improvement, so that among equally good elements the
one seen first is kept. -/
def pickBest {α : Type} (f : α → Nat) (b : α) (rest : List α) : α :=
  rest.foldl (fun x c => if f c > f x then c else x) b

/-- Model of `Counter(colors).most_common(1)[0][0]`.  CPython's
`Counter.most_common` orders the counter's items by count descending with a
stable sort, and a `Counter` built from a list stores its keys in first
occurrence order; the selected key is therefore the first key, in first
occurrence order, to attain the maximal multiplicity.  A left fold over the
list that replaces the running best only when a color's count strictly
exceeds the best's count computes exactly that key. -/
def most_common1 (l : List RGB) : Option RGB :=
  match l with
  | [] => none
  | c :: rest => some (pickBest (fun x => l.count x) c rest)

/-- Python's `f"{v:02X}"`: uppercase hex digits of `v`, left-padded with
`'0'` to a minimum width of 2. -/
def fmt02X (v : Nat) : String :=
  let ds := (Nat.toDigits 16 v).map Char.toUpper
  String.mk (if ds.length = 1 then '0' :: ds else ds)

/-- `f"#{r:02X}{g:02X}{b:02X}"`. -/
def hex_color (c : RGB) : String :=
  "#" ++ fmt02X c.r ++ fmt02X c.g ++ fmt02X c.b

/-- The body of `extract_thread_color_from_pattern` after decoding: the
frequency-count path when `colors` is nonempty (`if colors:`), otherwise
the single-pixel fallback at `(min(width - 1, start_x), start_y)` whose
alpha channel is never read. -/
def extract_thread_color_from_pattern (img : Image) : String :=
  match most_common1 (colors img) with
  | some mc => hex_color mc
  | none =>
      let x := min (img.width - 1) (start_x img.width)
      let y := start_y img.height
      let p := img.pix x y
      hex_color ⟨p.r, p.g, p.b⟩

/-- Index of the first occurrence of `c` in a list (length of the list when
absent); used to state the first-seen-wins tie-break. -/
def firstIdx (c : RGB) : List RGB → Nat
  | [] => 0
  | x :: rest => if x = c then 0 else firstIdx c rest + 1

/-- An uppercase hexadecimal digit, `[0-9A-F]`. -/
def isUpperHexDigit (c : Char) : Bool :=
  ('0' ≤ c && c ≤ '9') || ('A' ≤ c && c ≤ 'F')

/-- `s` matches `^#[0-9A-F]{6}$`. -/
def isColorHex (s : String) : Bool :=
  match s.data with
  | '#' :: rest => rest.length == 6 && rest.all isUpperHexDigit
  | _ => false

/-- Spec scenario: a 100x100 image fully filled with RGBA (0,127,255,255). -/
def imgSolid : Image := ⟨100, 100, fun _ _ => ⟨0, 127, 255, 255⟩⟩

/-- Spec scenario: a fully transparent 50x50 image whose pixel (45,2) is
(10,20,30,0). -/
def imgClear50 : Image :=
  ⟨50, 50, fun x y => if x = 45 ∧ y = 2 then ⟨10, 20, 30, 0⟩ else ⟨7, 8, 9, 0⟩⟩

/-- Spec scenario: a 20x20 image whose sample rectangle holds one red and
one blue pixel, red first in row-major order. -/
def imgRedBlue : Image :=
  ⟨20, 20, fun x _ =>
    if x = 18 then ⟨255, 0, 0, 255⟩
    else if x = 19 then ⟨0, 0, 255, 255⟩
    else ⟨40, 40, 40, 255⟩⟩

/-- A 1x1 image whose single pixel is opaque white. -/
def oneByOneOpaque : Image := ⟨1, 1, fun _ _ => ⟨255, 255, 255, 255⟩⟩

/-- A 1x1 image whose single pixel is transparent. -/
def oneByOneClear : Image := ⟨1, 1, fun _ _ => ⟨3, 4, 5, 0⟩⟩

/-- A solid 5x5 image. -/
def imgSolid5 : Image := ⟨5, 5, fun _ _ => ⟨9, 208, 77, 255⟩⟩

/-- A 5x5 image equal to `imgSolid5` on every in-bounds pixel but differing
everywhere outside the 5x5 grid. -/
def imgSolid5Fringe : Image :=
  ⟨5, 5, fun x y => if x ≤ 4 ∧ y ≤ 4 then ⟨9, 208, 77, 255⟩ else ⟨0, 0, 0, 0⟩⟩

/-- A solid 10x10 image. -/
def imgTen : Image := ⟨10, 10, fun _ _ => ⟨1, 2, 3, 255⟩⟩

/-- A 10x10 image agreeing with `imgTen` only at pixel (9,0) — which is both
the whole sample rectangle and the fallback pixel for a 10x10 image. -/
def imgTenOther : Image :=
  ⟨10, 10, fun x y => if x = 9 ∧ y = 0 then ⟨1, 2, 3, 255⟩ else ⟨250, 250, 250, 255⟩⟩

-- smoke tests of the embedding (concrete evaluation)
example : fmt02X 255 = "FF" := rfl
example : fmt02X 0 = "00" := rfl
example : fmt02X 10 = "0A" := rfl
example : hex_color ⟨10, 20, 30⟩ = "#0A141E" := rfl
example : hex_color ⟨0, 127, 255⟩ = "#007FFF" := rfl
example : isColorHex "#0A141E" = true := rfl
example : isColorHex "#0a141e" = false := rfl
example : isColorHex "#0A141EF" = false := rfl
example :
    extract_thread_color_from_pattern
      ⟨50, 50, fun _ _ => ⟨10, 20, 30, 0⟩⟩ = "#0A141E" := by decide
set_option maxRecDepth 8000 in
example :
    extract_thread_color_from_pattern
      ⟨100, 100, fun _ _ => ⟨0, 127, 255, 255⟩⟩ = "#007FFF" := by decide
example :
    most_common1 [⟨1,0,0⟩, ⟨2,0,0⟩, ⟨2,0,0⟩, ⟨1,0,0⟩] = some ⟨1,0,0⟩ := by decide
example :
    most_common1 [⟨1,0,0⟩, ⟨2,0,0⟩, ⟨2,0,0⟩] = some ⟨2,0,0⟩ := by decide

/-! ## Bounds of the sample rectangle -/

theorem sample_width_pos (w : Nat) : 1 ≤ sample_width w := by
  unfold sample_width; omega

theorem sample_height_pos (h : Nat) : 1 ≤ sample_height h := by
  unfold sample_height; omega

theorem rect_x_lt (w sx : Nat) (hw : 1 ≤ w) (hsx : sx < sample_width w) :
    start_x w + sx < w := by
  unfold sample_width at hsx; unfold start_x; omega

theorem rect_y_lt (h sy : Nat) (hh : 1 ≤ h) (hsy : sy < sample_height h) :
    start_y h + sy < h := by
  unfold sample_height at hsy; unfold start_y; omega

theorem fallback_x_lt (w : Nat) (hw : 1 ≤ w) :
    min (w - 1) (start_x w) < w := by
  unfold start_x; omega

theorem start_y_lt (h : Nat) (hh : 1 ≤ h) : start_y h < h := by
  unfold start_y; omega

/-! ## The strict-improvement fold: maximality and first-seen tie-break -/

theorem pickBest_spec {α : Type} (f : α → Nat) :
    ∀ (rest : List α) (b r : α), pickBest f b rest = r →
      (f b ≤ f r ∧ ∀ c ∈ rest, f c ≤ f r) ∧
      (r = b ∨ ∃ p q, rest = p ++ r :: q ∧ f b < f r ∧ ∀ c ∈ p, f c < f r) := by
  intro rest
  induction rest with
  | nil =>
      intro b r hr
      cases hr
      exact ⟨⟨le_refl _, by simp⟩, Or.inl rfl⟩
  | cons c rest ih =>
      intro b r hr
      have hstep : pickBest f b (c :: rest) = pickBest f (if f c > f b then c else b) rest := rfl
      by_cases hcb : f c > f b
      · rw [hstep, if_pos hcb] at hr
        obtain ⟨⟨h1, h2⟩, h3⟩ := ih c r hr
        refine ⟨⟨le_trans (le_of_lt hcb) h1, ?_⟩, ?_⟩
        · intro x hx
          rcases List.mem_cons.mp hx with rfl | hx
          · exact h1
          · exact h2 x hx
        · right
          rcases h3 with rfl | ⟨p, q, hpq, hlt, hpre⟩
          · exact ⟨[], rest, rfl, hcb, by simp⟩
          · refine ⟨c :: p, q, by rw [List.cons_append, hpq], lt_trans hcb hlt, ?_⟩
            intro x hx
            rcases List.mem_cons.mp hx with rfl | hx
            · exact hlt
            · exact hpre x hx
      · rw [hstep, if_neg hcb] at hr
        obtain ⟨⟨h1, h2⟩, h3⟩ := ih b r hr
        push_neg at hcb
        refine ⟨⟨h1, ?_⟩, ?_⟩
        · intro x hx
          rcases List.mem_cons.mp hx with rfl | hx
          · exact le_trans hcb h1
          · exact h2 x hx
        · rcases h3 with rfl | ⟨p, q, hpq, hlt, hpre⟩
          · exact Or.inl rfl
          · right
            refine ⟨c :: p, q, by rw [List.cons_append, hpq], hlt, ?_⟩
            intro x hx
            rcases List.mem_cons.mp hx with rfl | hx
            · exact lt_of_le_of_lt hcb hlt
            · exact hpre x hx

theorem most_common1_spec (l : List RGB) (hne : l ≠ []) :
    ∃ m, most_common1 l = some m ∧ m ∈ l ∧
      (∀ c ∈ l, l.count c ≤ l.count m) ∧
      ∃ p q, l = p ++ m :: q ∧ ∀ c ∈ p, l.count c < l.count m := by
  obtain ⟨c, rest, rfl⟩ := List.exists_cons_of_ne_nil hne
  obtain ⟨m, hm⟩ : ∃ m, pickBest (fun x => (c :: rest).count x) c rest = m := ⟨_, rfl⟩
  obtain ⟨⟨h1, h2⟩, h3⟩ := pickBest_spec (fun x => (c :: rest).count x) rest c m hm
  refine ⟨m, ?_, ?_, ?_, ?_⟩
  · show some (pickBest (fun x => (c :: rest).count x) c rest) = some m
    rw [hm]
  · rcases h3 with rfl | ⟨p, q, hpq, _, _⟩
    · exact List.mem_cons_self _ _
    · refine List.mem_cons_of_mem c ?_
      rw [hpq]
      exact List.mem_append_right p (List.mem_cons_self _ q)
  · intro x hx
    rcases List.mem_cons.mp hx with rfl | hx
    · exact h1
    · exact h2 x hx
  · rcases h3 with rfl | ⟨p, q, hpq, hlt, hpre⟩
    · exact ⟨[], rest, rfl, by simp⟩
    · refine ⟨c :: p, q, by rw [List.cons_append, hpq], ?_⟩
      intro x hx
      rcases List.mem_cons.mp hx with rfl | hx
      · exact hlt
      · exact hpre x hx

theorem most_common1_eq_none (l : List RGB) : most_common1 l = none ↔ l = [] := by
  cases l <;> simp [most_common1]

/-! ## First-occurrence index -/

theorem firstIdx_le_append (c : RGB) (p q : List RGB) :
    firstIdx c (p ++ c :: q) ≤ p.length := by
  induction p with
  | nil => simp [firstIdx]
  | cons a p ih =>
      by_cases hac : a = c
      · simp [firstIdx, hac]
      · simp only [List.cons_append, firstIdx, if_neg hac, List.length_cons, List.append_eq]
        omega

theorem length_le_firstIdx (c : RGB) (p rest : List RGB) :
    c ∉ p → p.length ≤ firstIdx c (p ++ rest) := by
  induction p with
  | nil => intro _; simp
  | cons a p ih =>
      intro h
      have hac : a ≠ c := fun e => h (e ▸ List.mem_cons_self a p)
      have hp : c ∉ p := fun hc => h (List.mem_cons_of_mem a hc)
      simp only [List.cons_append, firstIdx, if_neg hac, List.length_cons, List.append_eq]
      have := ih hp
      omega

/-! ## Membership in the colors list -/

theorem mem_colors {img : Image} {c : RGB} :
    c ∈ colors img ↔
      ∃ sx, sx < sample_width img.width ∧ ∃ sy, sy < sample_height img.height ∧
        200 < (img.pix (start_x img.width + sx) (start_y img.height + sy)).a ∧
        c = ⟨(img.pix (start_x img.width + sx) (start_y img.height + sy)).r,
             (img.pix (start_x img.width + sx) (start_y img.height + sy)).g,
             (img.pix (start_x img.width + sx) (start_y img.height + sy)).b⟩ := by
  simp only [colors, List.mem_flatMap, List.mem_filterMap, List.mem_range]
  constructor
  · rintro ⟨sy, hsy, sx, hsx, hopt⟩
    by_cases ha : 200 < (img.pix (start_x img.width + sx) (start_y img.height + sy)).a
    · rw [if_pos ha] at hopt
      exact ⟨sx, hsx, sy, hsy, ha, (Option.some_inj.mp hopt).symm⟩
    · rw [if_neg ha] at hopt
      exact absurd hopt (Option.noConfusion)
  · rintro ⟨sx, hsx, sy, hsy, ha, rfl⟩
    exact ⟨sy, hsy, sx, hsx, by rw [if_pos ha]⟩

theorem colors_ne_nil_iff {img : Image} :
    colors img ≠ [] ↔
      ∃ sx, sx < sample_width img.width ∧ ∃ sy, sy < sample_height img.height ∧
        200 < (img.pix (start_x img.width + sx) (start_y img.height + sy)).a := by
  constructor
  · intro hne
    obtain ⟨c, hc⟩ := List.exists_mem_of_ne_nil _ hne
    obtain ⟨sx, hsx, sy, hsy, ha, _⟩ := mem_colors.mp hc
    exact ⟨sx, hsx, sy, hsy, ha⟩
  · rintro ⟨sx, hsx, sy, hsy, ha⟩ hnil
    have hc : (⟨(img.pix (start_x img.width + sx) (start_y img.height + sy)).r,
               (img.pix (start_x img.width + sx) (start_y img.height + sy)).g,
               (img.pix (start_x img.width + sx) (start_y img.height + sy)).b⟩ : RGB) ∈ colors img :=
      mem_colors.mpr ⟨sx, hsx, sy, hsy, ha, rfl⟩
    rw [hnil] at hc
    exact absurd hc (List.not_mem_nil _)

/-! ## Unfolding the two paths of the extractor -/

theorem extract_eq_of_most (img : Image) {m : RGB}
    (h : most_common1 (colors img) = some m) :
    extract_thread_color_from_pattern img = hex_color m := by
  unfold extract_thread_color_from_pattern
  rw [h]

theorem extract_eq_fallback (img : Image) (h : colors img = []) :
    extract_thread_color_from_pattern img =
      hex_color ⟨(img.pix (min (img.width - 1) (start_x img.width)) (start_y img.height)).r,
                 (img.pix (min (img.width - 1) (start_x img.width)) (start_y img.height)).g,
                 (img.pix (min (img.width - 1) (start_x img.width)) (start_y img.height)).b⟩ := by
  unfold extract_thread_color_from_pattern
  rw [h]
  rfl

/-! ## The extractor reads only the rectangle and the fallback pixel -/

theorem colors_congr (img1 img2 : Image)
    (hw : img1.width = img2.width) (hh : img1.height = img2.height)
    (hrect : ∀ sx, sx < sample_width img1.width → ∀ sy, sy < sample_height img1.height →
      img1.pix (start_x img1.width + sx) (start_y img1.height + sy) =
        img2.pix (start_x img1.width + sx) (start_y img1.height + sy)) :
    colors img1 = colors img2 := by
  unfold colors
  rw [← hw, ← hh]
  refine List.flatMap_congr ?_
  intro sy hsy
  refine List.filterMap_congr ?_
  intro sx hsx
  rw [hrect sx (List.mem_range.mp hsx) sy (List.mem_range.mp hsy)]

theorem extract_congr (img1 img2 : Image)
    (hw : img1.width = img2.width) (hh : img1.height = img2.height)
    (hrect : ∀ sx, sx < sample_width img1.width → ∀ sy, sy < sample_height img1.height →
      img1.pix (start_x img1.width + sx) (start_y img1.height + sy) =
        img2.pix (start_x img1.width + sx) (start_y img1.height + sy))
    (hfb : img1.pix (min (img1.width - 1) (start_x img1.width)) (start_y img1.height) =
      img2.pix (min (img1.width - 1) (start_x img1.width)) (start_y img1.height)) :
    extract_thread_color_from_pattern img1 = extract_thread_color_from_pattern img2 := by
  have hcol : colors img1 = colors img2 := colors_congr img1 img2 hw hh hrect
  cases hm : most_common1 (colors img1) with
  | some m =>
      rw [extract_eq_of_most img1 hm, extract_eq_of_most img2 (by rw [← hcol]; exact hm)]
  | none =>
      have h1 : colors img1 = [] := (most_common1_eq_none _).mp hm
      have h2 : colors img2 = [] := by rw [← hcol]; exact h1
      rw [extract_eq_fallback img1 h1, extract_eq_fallback img2 h2]
      rw [← hw, ← hh, ← hfb]

/-- Which pixel the returned color comes from: an opaque pixel of the sample
rectangle on the frequency path, the fallback pixel otherwise. -/
theorem extract_hex_of_pixel (img : Image) (hw : 1 ≤ img.width) (hh : 1 ≤ img.height) :
    ∃ x y, x < img.width ∧ y < img.height ∧
      extract_thread_color_from_pattern img =
        hex_color ⟨(img.pix x y).r, (img.pix x y).g, (img.pix x y).b⟩ ∧
      ((∃ sx, sx < sample_width img.width ∧ ∃ sy, sy < sample_height img.height ∧
          x = start_x img.width + sx ∧ y = start_y img.height + sy ∧
          200 < (img.pix x y).a) ∨
        (colors img = [] ∧ x = min (img.width - 1) (start_x img.width) ∧
          y = start_y img.height)) := by
  by_cases hc : colors img = []
  · exact ⟨min (img.width - 1) (start_x img.width), start_y img.height,
      fallback_x_lt img.width hw, start_y_lt img.height hh,
      extract_eq_fallback img hc, Or.inr ⟨hc, rfl, rfl⟩⟩
  · obtain ⟨m, hm, hmem, _, _⟩ := most_common1_spec _ hc
    obtain ⟨sx, hsx, sy, hsy, ha, hceq⟩ := mem_colors.mp hmem
    refine ⟨start_x img.width + sx, start_y img.height + sy,
      rect_x_lt _ _ hw hsx, rect_y_lt _ _ hh hsy, ?_,
      Or.inl ⟨sx, hsx, sy, hsy, rfl, rfl, ha⟩⟩
    rw [extract_eq_of_most img hm, hceq]

/-! ## The output format -/

set_option maxRecDepth 20000 in
theorem fmt02X_two_hex : ∀ v, v < 256 →
    (fmt02X v).data.length = 2 ∧ (fmt02X v).data.all isUpperHexDigit = true := by
  decide

theorem isColorHex_eq (s : String) (l : List Char) (h : s.data = '#' :: l) :
    isColorHex s = (l.length == 6 && l.all isUpperHexDigit) := by
  unfold isColorHex
  rw [h]
  rfl

theorem isColorHex_hex_color (c : RGB)
    (hr : c.r ≤ 255) (hg : c.g ≤ 255) (hb : c.b ≤ 255) :
    isColorHex (hex_color c) = true := by
  obtain ⟨hl1, ha1⟩ := fmt02X_two_hex c.r (by omega)
  obtain ⟨hl2, ha2⟩ := fmt02X_two_hex c.g (by omega)
  obtain ⟨hl3, ha3⟩ := fmt02X_two_hex c.b (by omega)
  have hdata : (hex_color c).data =
      '#' :: ((fmt02X c.r).data ++ (fmt02X c.g).data ++ (fmt02X c.b).data) := by
    unfold hex_color
    rw [String.data_append, String.data_append, String.data_append]
    rfl
  rw [isColorHex_eq _ _ hdata]
  simp [List.length_append, List.all_append, hl1, hl2, hl3, ha1, ha2, ha3]

/-! ## Claim theorems -/

/-- C1: for every image whose sample rectangle contains at least one pixel
with alpha strictly greater than 200, `extract_thread_color_from_pattern`
returns the hex encoding of the most frequent (R,G,B) triple among those
pixels (collected by the row-major traversal that builds `colors`), and a
tie between equally frequent colors is won by the color whose first
occurrence comes earliest in that traversal. -/
theorem extract_most_frequent_first_seen (img : Image)
    (hop : ∃ sx, sx < sample_width img.width ∧ ∃ sy, sy < sample_height img.height ∧
      200 < (img.pix (start_x img.width + sx) (start_y img.height + sy)).a) :
    ∃ m, m ∈ colors img ∧
      extract_thread_color_from_pattern img = hex_color m ∧
      (∀ c ∈ colors img, (colors img).count c ≤ (colors img).count m) ∧
      (∀ c ∈ colors img, (colors img).count c = (colors img).count m →
        firstIdx m (colors img) ≤ firstIdx c (colors img)) := by
  have hne : colors img ≠ [] := colors_ne_nil_iff.mpr hop
  obtain ⟨m, hm, hmem, hmax, p, q, hpq, hpre⟩ := most_common1_spec _ hne
  refine ⟨m, hmem, extract_eq_of_most img hm, hmax, ?_⟩
  intro c hc hcnt
  have hcp : c ∉ p := by
    intro hcpmem
    have := hpre c hcpmem
    omega
  have h1 : firstIdx m (colors img) ≤ p.length := by
    rw [hpq]; exact firstIdx_le_append m p q
  have h2 : p.length ≤ firstIdx c (colors img) := by
    rw [hpq]; exact length_le_firstIdx c p (m :: q) hcp
  omega

/-- C1 witness: the spec's 100x100 image solidly filled with
RGBA (0,127,255,255). -/
theorem extract_most_frequent_first_seen_witness :
    (∃ sx, sx < sample_width imgSolid.width ∧ ∃ sy, sy < sample_height imgSolid.height ∧
      200 < (imgSolid.pix (start_x imgSolid.width + sx) (start_y imgSolid.height + sy)).a) ∧
    ∃ m, m ∈ colors imgSolid ∧
      extract_thread_color_from_pattern imgSolid = hex_color m ∧
      (∀ c ∈ colors imgSolid, (colors imgSolid).count c ≤ (colors imgSolid).count m) ∧
      (∀ c ∈ colors imgSolid, (colors imgSolid).count c = (colors imgSolid).count m →
        firstIdx m (colors imgSolid) ≤ firstIdx c (colors imgSolid)) :=
  ⟨by decide, extract_most_frequent_first_seen imgSolid (by decide)⟩

/-- C2: when no pixel of the sample rectangle has alpha above 200, the
result is the hex encoding of the R,G,B channels of the single pixel at
`(min(width - 1, start_x), start_y)`, its alpha ignored. -/
theorem extract_fallback_pixel (img : Image)
    (hall : ∀ sx, sx < sample_width img.width → ∀ sy, sy < sample_height img.height →
      (img.pix (start_x img.width + sx) (start_y img.height + sy)).a ≤ 200) :
    extract_thread_color_from_pattern img =
      hex_color ⟨(img.pix (min (img.width - 1) (start_x img.width)) (start_y img.height)).r,
                 (img.pix (min (img.width - 1) (start_x img.width)) (start_y img.height)).g,
                 (img.pix (min (img.width - 1) (start_x img.width)) (start_y img.height)).b⟩ := by
  have hc : colors img = [] := by
    by_contra hne
    obtain ⟨sx, hsx, sy, hsy, ha⟩ := colors_ne_nil_iff.mp hne
    have := hall sx hsx sy hsy
    omega
  exact extract_eq_fallback img hc

/-- C2 witness: the spec's fully transparent 50x50 image with pixel
(45,2) = (10,20,30,0); the fallback pixel is (45,2) and the result is
"#0A141E". -/
theorem extract_fallback_pixel_witness :
    (∀ sx, sx < sample_width imgClear50.width → ∀ sy, sy < sample_height imgClear50.height →
      (imgClear50.pix (start_x imgClear50.width + sx) (start_y imgClear50.height + sy)).a ≤ 200) ∧
    extract_thread_color_from_pattern imgClear50 = "#0A141E" :=
  ⟨by decide, (extract_fallback_pixel imgClear50 (by decide)).trans (by decide)⟩

/-- C3: for positive dimensions the sample rectangle is at least 1 pixel in
each direction and lies inside `[0, width) x [0, height)`, and the fallback
access is in bounds as well, so every pixel access of
`extract_thread_color_from_pattern` is in bounds. -/
theorem sample_rect_in_bounds (w h : Nat) (hw : 1 ≤ w) (hh : 1 ≤ h) :
    1 ≤ sample_width w ∧ 1 ≤ sample_height h ∧
      (∀ sx, sx < sample_width w → start_x w + sx < w) ∧
      (∀ sy, sy < sample_height h → start_y h + sy < h) ∧
      min (w - 1) (start_x w) < w ∧ start_y h < h := by
  refine ⟨sample_width_pos w, sample_height_pos h, ?_, ?_,
    fallback_x_lt w hw, start_y_lt h hh⟩
  · intro sx hsx
    exact rect_x_lt w sx hw hsx
  · intro sy hsy
    exact rect_y_lt h sy hh hsy

/-- C3 witness: the bounds at a 50x50 image. -/
theorem sample_rect_in_bounds_witness :
    (1 ≤ 50 ∧ 1 ≤ 50) ∧
      (1 ≤ sample_width 50 ∧ 1 ≤ sample_height 50 ∧
        (∀ sx, sx < sample_width 50 → start_x 50 + sx < 50) ∧
        (∀ sy, sy < sample_height 50 → start_y 50 + sy < 50) ∧
        min (50 - 1) (start_x 50) < 50 ∧ start_y 50 < 50) :=
  ⟨by decide, sample_rect_in_bounds 50 50 (by decide) (by decide)⟩

/-- C5: for every decodable image (positive dimensions, byte channels) the
result, on both paths, is a 7-character string matching `^#[0-9A-F]{6}$`. -/
theorem extract_output_matches_format (img : Image)
    (hw : 1 ≤ img.width) (hh : 1 ≤ img.height) (hv : img.valid) :
    isColorHex (extract_thread_color_from_pattern img) = true := by
  obtain ⟨x, y, hx, hy, heq, _⟩ := extract_hex_of_pixel img hw hh
  obtain ⟨hr, hg, hb, _⟩ := hv x hx y hy
  rw [heq]
  exact isColorHex_hex_color _ hr hg hb

/-- C5 witness: the format at the 20x20 red/blue image. -/
theorem extract_output_matches_format_witness :
    (1 ≤ imgRedBlue.width ∧ 1 ≤ imgRedBlue.height ∧ imgRedBlue.valid) ∧
    isColorHex (extract_thread_color_from_pattern imgRedBlue) = true :=
  ⟨⟨by decide, by decide, by decide⟩,
    extract_output_matches_format imgRedBlue (by decide) (by decide) (by decide)⟩

/-- C6: for a 20x20 image whose sample rectangle (pixels (18,1) and (19,1)
under the sampling policy) holds one red and one blue opaque pixel with red
first in row-major order, the result is "#FF0000". -/
theorem extract_20x20_red_first_tie (img : Image)
    (hw : img.width = 20) (hh : img.height = 20)
    (hred : img.pix 18 1 = ⟨255, 0, 0, 255⟩)
    (hblue : img.pix 19 1 = ⟨0, 0, 255, 255⟩) :
    extract_thread_color_from_pattern img = "#FF0000" := by
  have hcol : colors img = [⟨255, 0, 0⟩, ⟨0, 0, 255⟩] := by
    simp [colors, sample_width, sample_height, start_x, start_y, hw, hh,
      List.range_succ, hred, hblue]
  have hmost : most_common1 (colors img) = some ⟨255, 0, 0⟩ := by
    rw [hcol]; rfl
  rw [extract_eq_of_most img hmost]
  rfl

/-- C6 witness: the concrete red/blue 20x20 image. -/
theorem extract_20x20_red_first_tie_witness :
    (imgRedBlue.width = 20 ∧ imgRedBlue.height = 20 ∧
      imgRedBlue.pix 18 1 = ⟨255, 0, 0, 255⟩ ∧
      imgRedBlue.pix 19 1 = ⟨0, 0, 255, 255⟩) ∧
    extract_thread_color_from_pattern imgRedBlue = "#FF0000" :=
  ⟨⟨rfl, rfl, by decide, by decide⟩,
    extract_20x20_red_first_tie imgRedBlue rfl rfl (by decide) (by decide)⟩

/-- C7 (amended): a 1x1 image never crashes: the rectangle clamps to the
single pixel (0,0), the result is the hex encoding of that pixel's R,G,B on
either path, and the fallback path (`colors img = []`) is taken exactly when
that pixel's alpha is at most 200 — not unconditionally. -/
theorem extract_1x1_total (img : Image) (hw : img.width = 1) (hh : img.height = 1) :
    extract_thread_color_from_pattern img =
      hex_color ⟨(img.pix 0 0).r, (img.pix 0 0).g, (img.pix 0 0).b⟩ ∧
    (colors img = [] ↔ (img.pix 0 0).a ≤ 200) := by
  by_cases ha : 200 < (img.pix 0 0).a
  · have hcol : colors img = [⟨(img.pix 0 0).r, (img.pix 0 0).g, (img.pix 0 0).b⟩] := by
      simp [colors, sample_width, sample_height, start_x, start_y, hw, hh,
        List.range_succ, ha]
    have hmost : most_common1 (colors img) =
        some ⟨(img.pix 0 0).r, (img.pix 0 0).g, (img.pix 0 0).b⟩ := by
      rw [hcol]; rfl
    refine ⟨extract_eq_of_most img hmost, ?_⟩
    rw [hcol]
    simp
    omega
  · have hcol : colors img = [] := by
      simp [colors, sample_width, sample_height, start_x, start_y, hw, hh,
        List.range_succ, ha]
    refine ⟨?_, by rw [hcol]; simp; omega⟩
    rw [extract_eq_fallback img hcol, hw, hh]
    rfl

/-- C7 witness: the transparent 1x1 image. -/
theorem extract_1x1_total_witness :
    (oneByOneClear.width = 1 ∧ oneByOneClear.height = 1) ∧
    (extract_thread_color_from_pattern oneByOneClear =
        hex_color ⟨(oneByOneClear.pix 0 0).r, (oneByOneClear.pix 0 0).g,
          (oneByOneClear.pix 0 0).b⟩ ∧
      (colors oneByOneClear = [] ↔ (oneByOneClear.pix 0 0).a ≤ 200)) :=
  ⟨⟨rfl, rfl⟩, extract_1x1_total oneByOneClear rfl rfl⟩

/-- C7 counterexample: the fallback path of
`extract_thread_color_from_pattern` is its `colors img = []` branch, and for
the opaque 1x1 image that branch is not taken — the frequency-count path
produces the result — so "for every 1x1 image … the result is produced via
the fallback path" is false. -/
theorem one_by_one_opaque_not_fallback :
    oneByOneOpaque.width = 1 ∧ oneByOneOpaque.height = 1 ∧
      colors oneByOneOpaque ≠ [] ∧
      most_common1 (colors oneByOneOpaque) = some ⟨255, 255, 255⟩ ∧
      extract_thread_color_from_pattern oneByOneOpaque = "#FFFFFF" := by
  decide

/-- C8: the extractor is a pure function of the image: two images with the
same dimensions and the same pixel values (on every in-bounds coordinate)
produce identical output strings.  The embedding itself is a total Lean
function, mirroring that the Python function mutates nothing. -/
theorem extract_deterministic (img1 img2 : Image)
    (hw1 : 1 ≤ img1.width) (hh1 : 1 ≤ img1.height)
    (hw : img1.width = img2.width) (hh : img1.height = img2.height)
    (hpix : ∀ x, x < img1.width → ∀ y, y < img1.height → img1.pix x y = img2.pix x y) :
    extract_thread_color_from_pattern img1 = extract_thread_color_from_pattern img2 := by
  apply extract_congr img1 img2 hw hh
  · intro sx hsx sy hsy
    exact hpix _ (rect_x_lt _ _ hw1 hsx) _ (rect_y_lt _ _ hh1 hsy)
  · exact hpix _ (fallback_x_lt _ hw1) _ (start_y_lt _ hh1)

/-- C8 witness: two 5x5 images equal on the 5x5 grid but different outside
it yield the same output. -/
theorem extract_deterministic_witness :
    (1 ≤ imgSolid5.width ∧ 1 ≤ imgSolid5.height ∧
      imgSolid5.width = imgSolid5Fringe.width ∧
      imgSolid5.height = imgSolid5Fringe.height ∧
      (∀ x, x < imgSolid5.width → ∀ y, y < imgSolid5.height →
        imgSolid5.pix x y = imgSolid5Fringe.pix x y)) ∧
    extract_thread_color_from_pattern imgSolid5 =
      extract_thread_color_from_pattern imgSolid5Fringe :=
  ⟨⟨by decide, by decide, rfl, rfl, by decide⟩,
    extract_deterministic imgSolid5 imgSolid5Fringe
      (by decide) (by decide) rfl rfl (by decide)⟩

/-- C9: the returned string is the hex encoding of the R,G,B channels of an
actual pixel of the image: an opaque pixel of the sample rectangle on the
frequency path, or the fallback pixel at
`(min(width - 1, start_x), start_y)`; no synthesized color. -/
theorem extract_color_is_a_pixel_color (img : Image)
    (hw : 1 ≤ img.width) (hh : 1 ≤ img.height) :
    ∃ x y, x < img.width ∧ y < img.height ∧
      extract_thread_color_from_pattern img =
        hex_color ⟨(img.pix x y).r, (img.pix x y).g, (img.pix x y).b⟩ ∧
      ((∃ sx, sx < sample_width img.width ∧ ∃ sy, sy < sample_height img.height ∧
          x = start_x img.width + sx ∧ y = start_y img.height + sy ∧
          200 < (img.pix x y).a) ∨
        (colors img = [] ∧ x = min (img.width - 1) (start_x img.width) ∧
          y = start_y img.height)) :=
  extract_hex_of_pixel img hw hh

/-- C9 witness: the pixel provenance at the solid 10x10 image. -/
theorem extract_color_is_a_pixel_color_witness :
    (1 ≤ imgTen.width ∧ 1 ≤ imgTen.height) ∧
    ∃ x y, x < imgTen.width ∧ y < imgTen.height ∧
      extract_thread_color_from_pattern imgTen =
        hex_color ⟨(imgTen.pix x y).r, (imgTen.pix x y).g, (imgTen.pix x y).b⟩ ∧
      ((∃ sx, sx < sample_width imgTen.width ∧ ∃ sy, sy < sample_height imgTen.height ∧
          x = start_x imgTen.width + sx ∧ y = start_y imgTen.height + sy ∧
          200 < (imgTen.pix x y).a) ∨
        (colors imgTen = [] ∧ x = min (imgTen.width - 1) (start_x imgTen.width) ∧
          y = start_y imgTen.height)) :=
  ⟨⟨by decide, by decide⟩, extract_color_is_a_pixel_color imgTen (by decide) (by decide)⟩

/-- C10: the output depends only on the dimensions, the pixels of the
sample rectangle and the fallback pixel: two images of equal width and
height agreeing on those pixels yield identical output, whatever every
other pixel holds. -/
theorem extract_depends_only_on_sampled_pixels (img1 img2 : Image)
    (hw : img1.width = img2.width) (hh : img1.height = img2.height)
    (hrect : ∀ sx, sx < sample_width img1.width → ∀ sy, sy < sample_height img1.height →
      img1.pix (start_x img1.width + sx) (start_y img1.height + sy) =
        img2.pix (start_x img1.width + sx) (start_y img1.height + sy))
    (hfb : img1.pix (min (img1.width - 1) (start_x img1.width)) (start_y img1.height) =
      img2.pix (min (img1.width - 1) (start_x img1.width)) (start_y img1.height)) :
    extract_thread_color_from_pattern img1 = extract_thread_color_from_pattern img2 :=
  extract_congr img1 img2 hw hh hrect hfb

/-- C10 witness: two 10x10 images agreeing only at pixel (9,0), the whole
sample rectangle and fallback pixel of a 10x10 image, yield the same
output although they differ on the other 99 pixels. -/
theorem extract_depends_only_on_sampled_pixels_witness :
    (imgTen.width = imgTenOther.width ∧ imgTen.height = imgTenOther.height ∧
      (∀ sx, sx < sample_width imgTen.width → ∀ sy, sy < sample_height imgTen.height →
        imgTen.pix (start_x imgTen.width + sx) (start_y imgTen.height + sy) =
          imgTenOther.pix (start_x imgTen.width + sx) (start_y imgTen.height + sy)) ∧
      imgTen.pix (min (imgTen.width - 1) (start_x imgTen.width)) (start_y imgTen.height) =
        imgTenOther.pix (min (imgTen.width - 1) (start_x imgTen.width)) (start_y imgTen.height) ∧
      imgTen.pix 0 0 ≠ imgTenOther.pix 0 0) ∧
    extract_thread_color_from_pattern imgTen =
      extract_thread_color_from_pattern imgTenOther :=
  ⟨⟨rfl, rfl, by decide, by decide, by decide⟩,
    extract_depends_only_on_sampled_pixels imgTen imgTenOther rfl rfl
      (by decide) (by decide)⟩
